import Mathlib

set_option maxRecDepth 8000

namespace LanceDB

/-!
Shallow embedding of the query layer in
`src/python/python/lancedb/query.py` (LanceDB python client).

Scores are modelled as exact rationals extended with the IEEE special
values (`nan`, `+inf`, `-inf`); floating-point rounding is not modelled.
External collaborators (storage `take`, the tantivy index search, the
reranker implementations) are parameters of the embedded functions, as
they live outside this repository's query layer.
-/

/-- `numpy.isclose` default absolute tolerance (`atol = 1e-8`). -/
def atol : ℚ := 1 / 100000000

/-- `numpy.isclose` default relative tolerance (`rtol = 1e-5`). -/
def rtol : ℚ := 1 / 100000

/-- A floating-point value: a finite rational or an IEEE special value. -/
inductive F where
  | num (q : ℚ)
  | nan
  | inf
  | ninf
deriving DecidableEq

namespace F

/-- Subtraction; exact on finite values, IEEE rules on special values. -/
def sub : F → F → F
  | num a, num b => num (a - b)
  | nan, _ => nan
  | _, nan => nan
  | inf, inf => nan
  | ninf, ninf => nan
  | inf, _ => inf
  | ninf, _ => ninf
  | num _, inf => ninf
  | num _, ninf => inf

/-- Division; exact on finite values, IEEE rules on special values and
division by zero (`0/0 = nan`, `a/0 = ±inf` for `a ≠ 0`). -/
def div : F → F → F
  | num a, num b =>
    if b = 0 then (if a = 0 then nan else if 0 < a then inf else ninf)
    else num (a / b)
  | nan, _ => nan
  | _, nan => nan
  | inf, inf => nan
  | inf, ninf => nan
  | ninf, inf => nan
  | ninf, ninf => nan
  | inf, num b => if 0 ≤ b then inf else ninf
  | ninf, num b => if 0 ≤ b then ninf else inf
  | num _, inf => num 0
  | num _, ninf => num 0

/-- `np.isclose(a, b)` with the default tolerances; false on `nan`. -/
def isclose : F → F → Bool
  | num a, num b => decide (|a - b| ≤ atol + rtol * |b|)
  | inf, inf => true
  | ninf, ninf => true
  | _, _ => false

/-- Pairwise maximum as computed by `np.max` (`nan` propagates). -/
def max2 : F → F → F
  | nan, _ => nan
  | _, nan => nan
  | inf, _ => inf
  | _, inf => inf
  | ninf, b => b
  | a, ninf => a
  | num a, num b => num (max a b)

/-- Pairwise minimum as computed by `np.min` (`nan` propagates). -/
def min2 : F → F → F
  | nan, _ => nan
  | _, nan => nan
  | ninf, _ => ninf
  | _, ninf => ninf
  | inf, b => b
  | a, inf => a
  | num a, num b => num (min a b)

/-- The total comparison used by `np.argsort` (ascending, `nan` sorted
last, as numpy does). -/
def leB : F → F → Bool
  | ninf, _ => true
  | _, ninf => false
  | num a, num b => decide (a ≤ b)
  | num _, _ => true
  | _, num _ => false
  | inf, _ => true
  | nan, inf => false
  | nan, nan => true

/-- Strict version of `leB`. -/
def ltB (a b : F) : Bool := leB a b && !(leB b a)

end F

/-- `np.max` over a one-dimensional array (the code only calls it on
non-empty arrays; `[]` is given the junk value `nan`). -/
def listMax : List F → F
  | [] => F.nan
  | x :: xs => xs.foldl F.max2 x

/-- `np.min` over a one-dimensional array. -/
def listMin : List F → F
  | [] => F.nan
  | x :: xs => xs.foldl F.min2 x

/-- Maximum of a list of rationals (junk value `0` on `[]`). -/
def qMax : List ℚ → ℚ
  | [] => 0
  | x :: xs => xs.foldl max x

/-- Minimum of a list of rationals (junk value `0` on `[]`). -/
def qMin : List ℚ → ℚ
  | [] => 0
  | x :: xs => xs.foldl min x

/-- Arrow column data types (only the ones the query layer touches). -/
inductive DType where
  | float32
  | uint64
  | other (s : String)
deriving DecidableEq

/-- A cell value of a result table. -/
inductive Value where
  | fl (x : F)
  | nat (n : ℕ)
  | str (s : String)
deriving DecidableEq

/-- A named, typed column of a `pyarrow.Table`. -/
structure Column where
  name : String
  dtype : DType
  vals : List Value
deriving DecidableEq

/-- A `pyarrow.Table`: an ordered list of equal-length columns. -/
structure Table where
  cols : List Column
deriving DecidableEq

/-- `len(table)` / `table.num_rows` (length of the first column). -/
def Table.numRows (t : Table) : ℕ :=
  match t.cols with
  | [] => 0
  | c :: _ => c.vals.length

/-- `table.column_names.index(name)`: index of the first column with the
given name (`none` models the `ValueError` when absent). -/
def colIdxList : List Column → String → Option ℕ
  | [], _ => none
  | c :: cs, name => if c.name = name then some 0 else (colIdxList cs name).map (· + 1)

/-- `table.append_column(field, values)`. -/
def Table.appendColumn (t : Table) (c : Column) : Table :=
  ⟨t.cols ++ [c]⟩

/-- `table.slice(length=len)`: `None` keeps everything, an integer keeps
the first `len` rows of every column. -/
def Table.slice (t : Table) (len : Option ℤ) : Table :=
  match len with
  | none => t
  | some k => ⟨t.cols.map (fun c => { c with vals := c.vals.take k.toNat })⟩

/-- `table.drop(names)` (the `KeyError` on a missing name is not
modelled; the query layer only drops columns it just appended). -/
def Table.dropCols (t : Table) (names : List String) : Table :=
  ⟨t.cols.filter (fun c => !(names.contains c.name))⟩

/-- `table.take(indices)`: select rows by position, in the given order. -/
def Table.takeRows (t : Table) (idxs : List ℕ) : Table :=
  ⟨t.cols.map (fun c => { c with vals := idxs.map (fun i => c.vals.getD i (Value.str "null")) })⟩

/-- `column.to_numpy()` on a float column. -/
def valToF : Value → F
  | Value.fl x => x
  | _ => F.nan

/-- `LanceHybridQueryBuilder._normalize_scores` (query.py lines 822-841):
rescale the named score column by `(x - min) / rng` where `rng` is
`max - min`, or `max` itself when `np.isclose(max, min)`; identity on a
zero-row table; `none` models the KeyError on a missing column. -/
def normalizeScores (results : Table) (column : String) (invert : Bool) : Option Table :=
  if results.numRows = 0 then some results else
  (colIdxList results.cols column).bind fun i =>
  (results.cols[i]?).bind fun c =>
  let scores := c.vals.map valToF
  let mx := listMax scores
  let mn := listMin scores
  let rng := if mx.isclose mn then mx else mx.sub mn
  let scores2 := scores.map (fun x => (x.sub mn).div rng)
  let scores3 := if invert then scores2.map (fun x => (F.num 1).sub x) else scores2
  some ⟨results.cols.set i ⟨column, DType.float32, scores3.map Value.fl⟩⟩

/-- `LanceHybridQueryBuilder._rank` (query.py lines 805-820): replace the
named score column by `ranks` where `ranks[sort_indices] = arange(n) + 1`
and `sort_indices = np.argsort(scores)` (reversed when not ascending).
`np.argsort` is an external collaborator whose output is passed in as
`sortIndices`; identity on a zero-row table. -/
def rankTable (results : Table) (column : String) (ascending : Bool)
    (sortIndices : List ℕ) : Option Table :=
  if results.numRows = 0 then some results else
  (colIdxList results.cols column).bind fun i =>
  (results.cols[i]?).bind fun c =>
  let n := c.vals.length
  let si := if ascending then sortIndices else sortIndices.reverse
  let ranks := (List.range n).map fun j => si.indexOf j + 1
  some ⟨results.cols.set i ⟨column, DType.float32, ranks.map (fun r => Value.fl (F.num r))⟩⟩

/-- The contract of `np.argsort(scores)` with the default kind
(quicksort): `p` is a permutation of `range n` and `scores` reordered by
`p` is ascending.  numpy documents the default kind as NOT stable, so
the order of equal values inside `p` is unspecified. -/
def argsortOk (scores : List F) (p : List ℕ) : Prop :=
  p.Perm (List.range scores.length) ∧
    (p.map (fun i => scores.getD i F.nan)).Pairwise (fun a b => F.leB a b = true)

instance (scores : List F) (p : List ℕ) : Decidable (argsortOk scores p) := by
  unfold argsortOk
  exact instDecidableAnd

/-- A raw python query value, classified the way the `isinstance` checks
in query.py classify it (list, numpy array, arrow array, chunked array,
string, tuple of raw values, or anything else). -/
inductive PyVal where
  | pyStr (s : String)
  | pyList (v : List ℚ)
  | pyNdarray (v : List ℚ)
  | pyArrowArr (v : List ℚ)
  | pyChunkedArr (v : List ℚ)
  | pyTuple (elems : List PyVal)
  | pyOther (tag : String)

/-- `LanceQueryBuilder._query_to_vector` (query.py lines 200-209): lists
and numpy arrays pass through; anything else is embedded via the
registered embedding function (its first returned vector), and the
absence of an embedding function raises `ValueError`.  `emb` is the
(read-only) embedding-function registry entry for the vector column. -/
def queryToVector (emb : Option (PyVal → List (List ℚ))) (query : PyVal) :
    Except String PyVal :=
  match query with
  | PyVal.pyList v => Except.ok (PyVal.pyList v)
  | PyVal.pyNdarray v => Except.ok (PyVal.pyNdarray v)
  | _ =>
    match emb with
    | some f =>
      match f query with
      | [] => Except.error "IndexError: list index out of range"
      | w :: _ => Except.ok (PyVal.pyNdarray w)
    | none => Except.error "No embedding function for the vector column"

/-- `LanceQueryBuilder._resolve_query` (query.py lines 172-198): decides
the concrete query type for a raw query and a requested mode. -/
def resolveQuery (emb : Option (PyVal → List (List ℚ))) (query : PyVal)
    (queryType : String) : Except String (PyVal × String) :=
  if queryType = "fts" then
    match query with
    | PyVal.pyStr s => Except.ok (PyVal.pyStr s, queryType)
    | _ => Except.error "TypeError: fts queries must be a string"
  else if queryType = "vector" then
    (queryToVector emb query).map (fun q => (q, queryType))
  else if queryType = "auto" then
    match query with
    | PyVal.pyList v => Except.ok (PyVal.pyList v, "vector")
    | PyVal.pyNdarray v => Except.ok (PyVal.pyNdarray v, "vector")
    | PyVal.pyTuple es => Except.ok (PyVal.pyTuple es, "hybrid")
    | q =>
      match emb with
      | some f =>
        match f q with
        | [] => Except.error "IndexError: list index out of range"
        | w :: _ => Except.ok (PyVal.pyNdarray w, "vector")
      | none => Except.ok (q, "fts")
  else
    Except.error "Invalid query_type, must be vector, fts, or auto"

/-- Is the value one of the vector-like shapes accepted inside a hybrid
query tuple (`list`, `np.ndarray`, `pa.Array`, `pa.ChunkedArray`)? -/
def isVectorLike : PyVal → Bool
  | PyVal.pyList _ => true
  | PyVal.pyNdarray _ => true
  | PyVal.pyArrowArr _ => true
  | PyVal.pyChunkedArr _ => true
  | _ => false

def errTupleArity : String := "The query must be a tuple of (vector_query, fts_query)."

def errVecShape : String := "The vector query must be one of the supported vector types."

def errFtsStr : String := "The fts query must be a string."

def errQueryShape : String := "The query must be either a string or a tuple of (vector, string)."

/-- `LanceHybridQueryBuilder._validate_query` (query.py lines 750-767):
a string is used for both sub-queries; a 2-tuple is split into
(vector query, fts query) after shape checks; everything else raises
`ValueError`. -/
def validateQuery (query : PyVal) : Except String (PyVal × String) :=
  match query with
  | PyVal.pyStr s => Except.ok (PyVal.pyStr s, s)
  | PyVal.pyTuple es =>
    if es.length ≠ 2 then Except.error errTupleArity
    else if !(isVectorLike (es.getD 0 (PyVal.pyOther "none"))) then Except.error errVecShape
    else
      match es.getD 1 (PyVal.pyOther "none") with
      | PyVal.pyStr s => Except.ok (es.getD 0 (PyVal.pyOther "none"), s)
      | _ => Except.error errFtsStr
  | _ => Except.error errQueryShape

/-- Modelled from the spec: `Table._get_fts_index_path` and the
embedding-function registry live outside `src/`.  Per spec section 6 the
full-text index "is located at a well-known per-table path; absence of
the index is a precondition failure", so the path is modelled as
`Option String`, `none` exactly when the table has no full-text index. -/
structure TableModel where
  ftsIndexPath : Option String
  emb : Option (PyVal → List (List ℚ))

/-- Modelled from the spec: `Path(index_path).exists()` holds exactly
when the table has a full-text index, i.e. when the modelled path is
present. -/
def pathExists : Option String → Bool
  | none => false
  | some _ => true

def errNoFtsIndexHybrid : String :=
  "Please create a full-text search index to perform hybrid search."

def errNoFtsIndex : String :=
  "Fts index does not exist. Please first call table.create_fts_index to create the fts index."

/-- `LanceHybridQueryBuilder._validate_fts_index` (query.py lines
744-748). -/
def validateFtsIndex (t : TableModel) : Except String Unit :=
  match t.ftsIndexPath with
  | none => Except.error errNoFtsIndexHybrid
  | some _ => Except.ok ()

/-- The builder state a successful `LanceHybridQueryBuilder.__init__`
produces (query.py lines 734-742 together with the base `__init__`,
lines 211-216, which sets `_limit = 10`). -/
structure HybridBuilder where
  vectorQuery : PyVal
  ftsQuery : String
  norm : String
  limit : Option ℤ
  withRowId : Bool

/-- `self._limit = 10` in `LanceQueryBuilder.__init__` (query.py line
213): the default limit before any `limit()` call. -/
def initLimit : Option ℤ := some 10

/-- `LanceHybridQueryBuilder.__init__` (query.py lines 734-742): fts
index precondition, query-shape validation and vectorisation all happen
here, before `to_arrow` can dispatch any sub-query. -/
def hybridInit (t : TableModel) (query : PyVal) : Except String HybridBuilder := do
  validateFtsIndex t
  let (vq, fq) ← validateQuery query
  let v ← queryToVector t.emb vq
  pure { vectorQuery := v, ftsQuery := fq, norm := "score", limit := initLimit,
         withRowId := false }

/-- `LanceQueryBuilder.limit` (query.py lines 340-344): `None`, zero and
negative values all store `None` ("unbounded"); positive values are
stored as given. -/
def baseLimitSet (limit : Option ℤ) : Option ℤ :=
  match limit with
  | none => none
  | some l => if l ≤ 0 then none else some l

/-- `LanceHybridQueryBuilder.limit` (query.py lines 875-894): the
override stores the raw value into `self._limit` with no `None`/
non-positive normalization (the sub-builders get the base-class
treatment via `self._vector_query.limit(limit)`). -/
def hybridLimitSet (limit : Option ℤ) : Option ℤ := limit

/-- `LanceHybridQueryBuilder.to_arrow` (query.py lines 769-803) after
the concurrent dual dispatch: rank conversion when `norm = "rank"`,
score normalization of both sides, reranking (the reranker is an
external collaborator passed as a function; the `isinstance` type check
is vacuous in the model), the `slice(length=self._limit)` truncation,
and the `_rowid` drop unless requested. -/
def hybridToArrow (vectorResults ftsResults : Table) (norm : String)
    (vecSortIdx ftsSortIdx : List ℕ)
    (reranker : String → Table → Table → Table) (ftsQueryStr : String)
    (lim : Option ℤ) (withRowId : Bool) : Option Table :=
  (if norm = "rank" then
    (rankTable vectorResults "_distance" true vecSortIdx).bind fun v =>
    (rankTable ftsResults "score" true ftsSortIdx).bind fun f =>
    some (v, f)
  else some (vectorResults, ftsResults)).bind fun vf =>
  (normalizeScores vf.1 "_distance" false).bind fun v1 =>
  (normalizeScores vf.2 "score" false).bind fun f1 =>
  let results := reranker ftsQueryStr v1 f1
  let results2 := results.slice lim
  some (if withRowId then results2 else results2.dropCols ["_rowid"])

/-- `LanceFtsQueryBuilder.to_arrow` (query.py lines 623-694): check the
index exists, search it (the tantivy collaborator is abstracted to its
returned `(row_ids, scores)`), return an empty single-column
`score: float32` table when there are no hits, otherwise take the rows
from storage (`takeResult` is the storage collaborator output), append
the score column, apply the optional post-filter (the duckdb indexer /
temporary-dataset fall-back both reduce to the surviving row positions
`whereIndexer`), and append `_rowid` when requested. -/
def ftsToArrow (indexPath : Option String) (rowIds : List ℕ) (scores : List ℚ)
    (takeResult : Table) (whereIndexer : Option (List ℕ)) (withRowId : Bool)
    (rerankFts : Option (Table → Table)) : Except String Table :=
  if pathExists indexPath = false then Except.error errNoFtsIndex
  else if rowIds.length = 0 then
    Except.ok ⟨[⟨"score", DType.float32, []⟩]⟩
  else
    let outputTbl := takeResult.appendColumn
      ⟨"score", DType.float32, scores.map (fun q => Value.fl (F.num q))⟩
    let step :=
      match whereIndexer with
      | none => (outputTbl, rowIds)
      | some idxs => (outputTbl.takeRows idxs, idxs.map (fun i => rowIds.getD i 0))
    let outputTbl2 :=
      if withRowId then
        step.1.appendColumn ⟨"_rowid", DType.uint64, step.2.map Value.nat⟩
      else step.1
    Except.ok (match rerankFts with | none => outputTbl2 | some r => r outputTbl2)

/-- The claim's reading of rank-mode normalization: the 1-based rank of
row `i` when sorting ascending with ties broken by original position. -/
def specStableRanks (scores : List F) : List ℕ :=
  (List.range scores.length).map fun i =>
    1 + ((List.range scores.length).filter fun j =>
      F.ltB (scores.getD j F.nan) (scores.getD i F.nan) ||
      (decide (scores.getD j F.nan = scores.getD i F.nan) && decide (j < i))).length

/-! ### Helper lemmas about the numpy max/min folds -/

theorem foldl_max2_num (xs : List ℚ) (a : ℚ) :
    (xs.map F.num).foldl F.max2 (F.num a) = F.num (xs.foldl max a) := by
  induction xs generalizing a with
  | nil => rfl
  | cons x xs ih => simpa [F.max2] using ih (max a x)

theorem foldl_min2_num (xs : List ℚ) (a : ℚ) :
    (xs.map F.num).foldl F.min2 (F.num a) = F.num (xs.foldl min a) := by
  induction xs generalizing a with
  | nil => rfl
  | cons x xs ih => simpa [F.min2] using ih (min a x)

theorem listMax_map_num (qs : List ℚ) (h : qs ≠ []) :
    listMax (qs.map F.num) = F.num (qMax qs) := by
  match qs with
  | [] => exact absurd rfl h
  | x :: xs => simp [listMax, qMax, foldl_max2_num]

theorem listMin_map_num (qs : List ℚ) (h : qs ≠ []) :
    listMin (qs.map F.num) = F.num (qMin qs) := by
  match qs with
  | [] => exact absurd rfl h
  | x :: xs => simp [listMin, qMin, foldl_min2_num]

theorem le_foldl_max (xs : List ℚ) (a : ℚ) : a ≤ xs.foldl max a := by
  induction xs generalizing a with
  | nil => exact le_refl a
  | cons x xs ih => exact le_trans (le_max_left a x) (ih (max a x))

theorem mem_le_foldl_max (xs : List ℚ) (a x : ℚ) (hx : x ∈ xs) : x ≤ xs.foldl max a := by
  induction xs generalizing a with
  | nil => cases hx
  | cons y ys ih =>
    rcases List.mem_cons.mp hx with h | h
    · subst h
      exact le_trans (le_max_right a x) (le_foldl_max ys (max a x))
    · exact ih (max a y) h

theorem foldl_min_le (xs : List ℚ) (a : ℚ) : xs.foldl min a ≤ a := by
  induction xs generalizing a with
  | nil => exact le_refl a
  | cons x xs ih => exact le_trans (ih (min a x)) (min_le_left a x)

theorem foldl_min_le_mem (xs : List ℚ) (a x : ℚ) (hx : x ∈ xs) : xs.foldl min a ≤ x := by
  induction xs generalizing a with
  | nil => cases hx
  | cons y ys ih =>
    rcases List.mem_cons.mp hx with h | h
    · subst h
      exact le_trans (foldl_min_le ys (min a x)) (min_le_right a x)
    · exact ih (min a y) h

theorem le_qMax (qs : List ℚ) (x : ℚ) (hx : x ∈ qs) : x ≤ qMax qs := by
  match qs with
  | [] => cases hx
  | y :: ys =>
    rcases List.mem_cons.mp hx with h | h
    · subst h
      exact le_foldl_max ys x
    · exact mem_le_foldl_max ys y x h

theorem qMin_le (qs : List ℚ) (x : ℚ) (hx : x ∈ qs) : qMin qs ≤ x := by
  match qs with
  | [] => cases hx
  | y :: ys =>
    rcases List.mem_cons.mp hx with h | h
    · subst h
      exact foldl_min_le ys x
    · exact foldl_min_le_mem ys y x h

theorem foldl_max_mem (xs : List ℚ) (a : ℚ) : xs.foldl max a = a ∨ xs.foldl max a ∈ xs := by
  induction xs generalizing a with
  | nil => exact Or.inl rfl
  | cons x xs ih =>
    rcases ih (max a x) with h | h
    · rcases max_cases a x with ⟨hm, _⟩ | ⟨hm, _⟩
      · exact Or.inl (by rw [List.foldl_cons, h, hm])
      · refine Or.inr ?_
        rw [List.foldl_cons, h, hm]
        exact List.mem_cons_self x xs
    · exact Or.inr (List.mem_cons_of_mem x h)

theorem foldl_min_mem (xs : List ℚ) (a : ℚ) : xs.foldl min a = a ∨ xs.foldl min a ∈ xs := by
  induction xs generalizing a with
  | nil => exact Or.inl rfl
  | cons x xs ih =>
    rcases ih (min a x) with h | h
    · rcases min_cases a x with ⟨hm, _⟩ | ⟨hm, _⟩
      · exact Or.inl (by rw [List.foldl_cons, h, hm])
      · refine Or.inr ?_
        rw [List.foldl_cons, h, hm]
        exact List.mem_cons_self x xs
    · exact Or.inr (List.mem_cons_of_mem x h)

theorem qMax_mem (qs : List ℚ) (h : qs ≠ []) : qMax qs ∈ qs := by
  match qs with
  | [] => exact absurd rfl h
  | y :: ys =>
    rcases foldl_max_mem ys y with hm | hm
    · rw [qMax, hm]
      exact List.mem_cons_self y ys
    · exact List.mem_cons_of_mem y hm

theorem qMin_mem (qs : List ℚ) (h : qs ≠ []) : qMin qs ∈ qs := by
  match qs with
  | [] => exact absurd rfl h
  | y :: ys =>
    rcases foldl_min_mem ys y with hm | hm
    · rw [qMin, hm]
      exact List.mem_cons_self y ys
    · exact List.mem_cons_of_mem y hm

theorem foldl_max_replicate (n : ℕ) (v : ℚ) : (List.replicate n v).foldl max v = v := by
  induction n with
  | zero => rfl
  | succ n ih => simpa [List.replicate_succ, max_self] using ih

theorem qMax_replicate (n : ℕ) (v : ℚ) (h : 0 < n) : qMax (List.replicate n v) = v := by
  match n, h with
  | n + 1, _ => simpa [List.replicate_succ, qMax] using foldl_max_replicate n v

theorem foldl_min_replicate (n : ℕ) (v : ℚ) : (List.replicate n v).foldl min v = v := by
  induction n with
  | zero => rfl
  | succ n ih => simpa [List.replicate_succ, min_self] using ih

theorem qMin_replicate (n : ℕ) (v : ℚ) (h : 0 < n) : qMin (List.replicate n v) = v := by
  match n, h with
  | n + 1, _ => simpa [List.replicate_succ, qMin] using foldl_min_replicate n v

theorem listMax_replicate_num (n : ℕ) (v : ℚ) (h : 0 < n) :
    listMax (List.replicate n (F.num v)) = F.num v := by
  rw [← List.map_replicate (f := F.num), listMax_map_num, qMax_replicate n v h]
  intro hc
  rw [List.replicate_eq_nil_iff] at hc
  omega

theorem listMin_replicate_num (n : ℕ) (v : ℚ) (h : 0 < n) :
    listMin (List.replicate n (F.num v)) = F.num v := by
  rw [← List.map_replicate (f := F.num), listMin_map_num, qMin_replicate n v h]
  intro hc
  rw [List.replicate_eq_nil_iff] at hc
  omega

/-! ### Claim theorems -/

/-- C2: for a result table whose score column is uniformly some value
`v` (with at least one row), score-mode normalization takes the
`np.isclose(max, min)` branch, divides by `max` (= `v`) instead of the
zero range, and never raises: if `v ≠ 0` every output score is the
deterministic constant `0`, and if `v = 0` the output is the all-NaN
column; in both cases a table is returned (no division-by-zero error). -/
theorem normalize_uniform_scores_safe (t : Table) (col : String) (i : ℕ) (c : Column)
    (n : ℕ) (v : ℚ)
    (hrows : t.numRows ≠ 0)
    (hidx : colIdxList t.cols col = some i)
    (hget : t.cols[i]? = some c)
    (hvals : c.vals = List.replicate n (Value.fl (F.num v)))
    (hn : 0 < n) :
    normalizeScores t col false =
      some ⟨t.cols.set i ⟨col, DType.float32,
        List.replicate n (Value.fl (if v = 0 then F.nan else F.num 0))⟩⟩ := by
  have hclose : (F.num v).isclose (F.num v) = true := by
    simp only [F.isclose, decide_eq_true_eq, sub_self, abs_zero]
    have h1 : (0:ℚ) < atol := by norm_num [atol]
    have h2 : (0:ℚ) ≤ rtol * |v| := mul_nonneg (by norm_num [rtol]) (abs_nonneg v)
    linarith
  have hdiv : ((F.num v).sub (F.num v)).div (F.num v) =
      (if v = 0 then F.nan else F.num 0) := by
    by_cases hv : v = 0
    · simp [F.sub, F.div, hv]
    · simp [F.sub, F.div, hv, sub_self, zero_div]
  unfold normalizeScores
  rw [if_neg hrows, hidx, Option.some_bind, hget, Option.some_bind]
  simp only [hvals, List.map_replicate, valToF, listMax_replicate_num n v hn,
    listMin_replicate_num n v hn, hclose, if_true, hdiv, Bool.false_eq_true, if_false]

def uniCol : Column := ⟨"score", DType.float32, [Value.fl (F.num 2), Value.fl (F.num 2)]⟩

def uniTbl : Table := ⟨[uniCol]⟩

theorem normalize_uniform_scores_safe_witness :
    (uniTbl.numRows ≠ 0 ∧ colIdxList uniTbl.cols "score" = some 0 ∧
      uniTbl.cols[0]? = some uniCol ∧
      uniCol.vals = List.replicate 2 (Value.fl (F.num 2)) ∧ 0 < 2) ∧
    normalizeScores uniTbl "score" false =
      some ⟨uniTbl.cols.set 0 ⟨"score", DType.float32,
        List.replicate 2 (Value.fl (if (2:ℚ) = 0 then F.nan else F.num 0))⟩⟩ :=
  ⟨⟨by decide, rfl, rfl, rfl, by decide⟩,
    normalize_uniform_scores_safe uniTbl "score" 0 uniCol 2 2 (by decide) rfl rfl rfl
      (by decide)⟩

/-- C9: on a zero-row table both normalization modes (`_normalize_scores`
and `_rank`) return the table unchanged — same schema, zero rows, no
error. -/
theorem normalize_rank_empty_identity (t : Table) (col : String) (inv asc : Bool)
    (si : List ℕ) (h : t.numRows = 0) :
    normalizeScores t col inv = some t ∧ rankTable t col asc si = some t := by
  constructor
  · unfold normalizeScores
    rw [if_pos h]
  · unfold rankTable
    rw [if_pos h]

def emptyTbl : Table := ⟨[⟨"score", DType.float32, []⟩, ⟨"a", DType.other "utf8", []⟩]⟩

theorem normalize_rank_empty_identity_witness :
    emptyTbl.numRows = 0 ∧
      (normalizeScores emptyTbl "score" true = some emptyTbl ∧
        rankTable emptyTbl "score" false [] = some emptyTbl) :=
  ⟨rfl, normalize_rank_empty_identity emptyTbl "score" true false [] rfl⟩

/-- C4 (amended): the code replaces `max == min` by the toleranced test
`np.isclose(max, min)`, so the `(x - min) / (max - min)` rescale is only
taken when `|max - min| > atol + rtol * |min|`.  Under that hypothesis
every output score is `(x - min) / (max - min)`, lies in `[0, 1]`, the
minimum maps to 0 and the maximum to 1, and the returned table replaces
only the named column, leaving every other column, the column count and
each column's row count (and row order, being a pointwise map)
unchanged; the input table value itself is untouched (pyarrow tables
are immutable; the embedding is pure). -/
theorem normalize_score_mode_rescales (t : Table) (col : String) (i : ℕ) (c : Column)
    (qs : List ℚ)
    (hrows : t.numRows ≠ 0)
    (hidx : colIdxList t.cols col = some i)
    (hget : t.cols[i]? = some c)
    (hvals : c.vals = qs.map (fun q => Value.fl (F.num q)))
    (hne : qs ≠ [])
    (hfar : ¬ (|qMax qs - qMin qs| ≤ atol + rtol * |qMin qs|)) :
    ∃ u : Table, normalizeScores t col false = some u ∧
      u.cols[i]? = some ⟨col, DType.float32,
        qs.map (fun q => Value.fl (F.num ((q - qMin qs) / (qMax qs - qMin qs))))⟩ ∧
      u.cols.length = t.cols.length ∧
      (∀ j : ℕ, j ≠ i → u.cols[j]? = t.cols[j]?) ∧
      (∀ (j : ℕ) (cj cj2 : Column), t.cols[j]? = some cj → u.cols[j]? = some cj2 →
        cj2.vals.length = cj.vals.length) ∧
      (∀ q ∈ qs,
        0 ≤ (q - qMin qs) / (qMax qs - qMin qs) ∧
        (q - qMin qs) / (qMax qs - qMin qs) ≤ 1 ∧
        (q = qMin qs → (q - qMin qs) / (qMax qs - qMin qs) = 0) ∧
        (q = qMax qs → (q - qMin qs) / (qMax qs - qMin qs) = 1)) ∧
      qMin qs ∈ qs ∧ qMax qs ∈ qs := by
  obtain ⟨x0, hx0⟩ := List.exists_mem_of_ne_nil qs hne
  have hminmax : qMin qs ≤ qMax qs := le_trans (qMin_le qs x0 hx0) (le_qMax qs x0 hx0)
  have hrng0 : qMax qs - qMin qs ≠ 0 := by
    intro h0
    apply hfar
    rw [h0, abs_zero]
    have h1 : (0:ℚ) < atol := by norm_num [atol]
    have h2 : (0:ℚ) ≤ rtol * |qMin qs| := mul_nonneg (by norm_num [rtol]) (abs_nonneg _)
    linarith
  have hrng : 0 < qMax qs - qMin qs := lt_of_le_of_ne (by linarith) (Ne.symm hrng0)
  have hlt : i < t.cols.length := (List.getElem?_eq_some_iff.mp hget).1
  have hclose : (F.num (qMax qs)).isclose (F.num (qMin qs)) = false := by
    simp only [F.isclose, decide_eq_false_iff_not]
    exact hfar
  have hmain : normalizeScores t col false =
      some ⟨t.cols.set i ⟨col, DType.float32,
        qs.map (fun q => Value.fl (F.num ((q - qMin qs) / (qMax qs - qMin qs))))⟩⟩ := by
    unfold normalizeScores
    rw [if_neg hrows, hidx, Option.some_bind, hget, Option.some_bind]
    have hscores : c.vals.map valToF = qs.map F.num := by
      rw [hvals, List.map_map]
      rfl
    simp only [hscores, listMax_map_num qs hne, listMin_map_num qs hne, hclose,
      Bool.false_eq_true, if_false, List.map_map, Function.comp_def]
    have hfn : ∀ q ∈ qs,
        Value.fl (((F.num q).sub (F.num (qMin qs))).div
          ((F.num (qMax qs)).sub (F.num (qMin qs)))) =
        Value.fl (F.num ((q - qMin qs) / (qMax qs - qMin qs))) := by
      intro q _
      simp only [F.sub, F.div, if_neg hrng0]
    rw [List.map_congr_left hfn]
  refine ⟨_, hmain, ?_, ?_, ?_, ?_, ?_, qMin_mem qs hne, qMax_mem qs hne⟩
  · exact List.getElem?_set_self hlt
  · exact List.length_set t.cols i _
  · intro j hj
    exact List.getElem?_set_ne (Ne.symm hj)
  · intro j cj cj2 hcj hcj2
    by_cases hji : j = i
    · subst hji
      rw [hget] at hcj
      rw [List.getElem?_set_self hlt] at hcj2
      cases hcj
      cases hcj2
      simp [hvals]
    · rw [List.getElem?_set_ne (fun h => hji h.symm)] at hcj2
      rw [hcj] at hcj2
      cases hcj2
      rfl
  · intro q hq
    refine ⟨div_nonneg (by linarith [qMin_le qs q hq]) (le_of_lt hrng), ?_, ?_, ?_⟩
    · rw [div_le_one hrng]
      linarith [le_qMax qs q hq]
    · intro hqmin
      rw [hqmin, sub_self, zero_div]
    · intro hqmax
      rw [hqmax, div_self hrng0]

/-- C4 counterexample input: two rows with scores `1` and
`1 + 1/1000000`.  The max and the min differ, yet they are within the
`np.isclose` default tolerance (`|max - min| = 1e-6 ≤ 1e-8 + 1e-5 * 1`),
so the code divides by `max` rather than `max - min`. -/
def tolCol : Column :=
  ⟨"score", DType.float32, [Value.fl (F.num 1), Value.fl (F.num (1000001/1000000))]⟩

def tolTbl : Table := ⟨[tolCol]⟩

/-- C4 counterexample: on `tolTbl` the score column has `max ≠ min`, but
the output is `[0, 1/1000001]`, not the `[0, 1]` that the claimed
`(x - min) / (max - min)` rescale (min to 0, max to 1) would give: the
row achieving the maximum is mapped to `1/1000001`, not `1`. -/
theorem normalize_isclose_tolerance_cex :
    qMax [1, 1000001/1000000] ≠ qMin [(1:ℚ), 1000001/1000000] ∧
    normalizeScores tolTbl "score" false =
      some ⟨[⟨"score", DType.float32,
        [Value.fl (F.num 0), Value.fl (F.num (1/1000001))]⟩]⟩ ∧
    (1:ℚ)/1000001 ≠ 1 := by
  refine ⟨by norm_num [qMax, qMin], ?_, by norm_num⟩
  unfold normalizeScores
  have hc : |(1:ℚ)/1000000| ≤ 1001/100000000 := by
    rw [abs_of_pos (by norm_num : (0:ℚ) < 1/1000000)]
    norm_num
  norm_num [Table.numRows, tolTbl, tolCol, colIdxList, Option.some_bind, valToF,
    listMax, listMin, F.max2, F.min2, F.isclose, F.sub, F.div, atol, rtol,
    Table.cols, List.set, hc]

def farCol : Column := ⟨"score", DType.float32, [Value.fl (F.num 0), Value.fl (F.num 10)]⟩

def farTbl : Table := ⟨[farCol]⟩

theorem normalize_score_mode_rescales_witness :
    (farTbl.numRows ≠ 0 ∧ colIdxList farTbl.cols "score" = some 0 ∧
      farTbl.cols[0]? = some farCol ∧
      farCol.vals = [(0:ℚ), 10].map (fun q => Value.fl (F.num q)) ∧
      ([(0:ℚ), 10] ≠ []) ∧
      ¬ (|qMax [(0:ℚ), 10] - qMin [(0:ℚ), 10]| ≤ atol + rtol * |qMin [(0:ℚ), 10]|)) ∧
    (∃ u : Table, normalizeScores farTbl "score" false = some u ∧
      u.cols[0]? = some ⟨"score", DType.float32,
        [(0:ℚ), 10].map (fun q => Value.fl (F.num
          ((q - qMin [(0:ℚ), 10]) / (qMax [(0:ℚ), 10] - qMin [(0:ℚ), 10]))))⟩ ∧
      u.cols.length = farTbl.cols.length ∧
      (∀ j : ℕ, j ≠ 0 → u.cols[j]? = farTbl.cols[j]?) ∧
      (∀ (j : ℕ) (cj cj2 : Column), farTbl.cols[j]? = some cj → u.cols[j]? = some cj2 →
        cj2.vals.length = cj.vals.length) ∧
      (∀ q ∈ [(0:ℚ), 10],
        0 ≤ (q - qMin [(0:ℚ), 10]) / (qMax [(0:ℚ), 10] - qMin [(0:ℚ), 10]) ∧
        (q - qMin [(0:ℚ), 10]) / (qMax [(0:ℚ), 10] - qMin [(0:ℚ), 10]) ≤ 1 ∧
        (q = qMin [(0:ℚ), 10] →
          (q - qMin [(0:ℚ), 10]) / (qMax [(0:ℚ), 10] - qMin [(0:ℚ), 10]) = 0) ∧
        (q = qMax [(0:ℚ), 10] →
          (q - qMin [(0:ℚ), 10]) / (qMax [(0:ℚ), 10] - qMin [(0:ℚ), 10]) = 1)) ∧
      qMin [(0:ℚ), 10] ∈ [(0:ℚ), 10] ∧ qMax [(0:ℚ), 10] ∈ [(0:ℚ), 10]) :=
  ⟨⟨by decide, rfl, rfl, rfl, by decide,
      by norm_num [qMax, qMin, max_def, min_def, abs_of_nonneg, atol, rtol]⟩,
    normalize_score_mode_rescales farTbl "score" 0 farCol [(0:ℚ), 10] (by decide) rfl rfl rfl
      (by decide) (by norm_num [qMax, qMin, max_def, min_def, abs_of_nonneg, atol, rtol])⟩

/-- C3 (amended): `_rank` with a sort permutation `p` satisfying the
`np.argsort` contract replaces the score column by 1-based ranks: the
rank values are `qs.length` distinct integers in `[1, qs.length]` and a
strictly smaller score always receives a strictly smaller rank (rank 1 =
smallest value).  The relative order of ranks among TIED values depends
on the sort permutation and is not guaranteed to be the original row
order, because `np.argsort` with the default quicksort kind is not
stable. -/
theorem rank_one_based_ascending (t : Table) (col : String) (i : ℕ) (c : Column)
    (qs : List ℚ) (p : List ℕ)
    (hrows : t.numRows ≠ 0)
    (hidx : colIdxList t.cols col = some i)
    (hget : t.cols[i]? = some c)
    (hvals : c.vals = qs.map (fun q => Value.fl (F.num q)))
    (hsort : argsortOk (qs.map F.num) p) :
    rankTable t col true p =
      some ⟨t.cols.set i ⟨col, DType.float32,
        ((List.range qs.length).map fun j => p.indexOf j + 1).map
          (fun r => Value.fl (F.num r))⟩⟩ ∧
    (∀ r ∈ (List.range qs.length).map fun j => p.indexOf j + 1,
      1 ≤ r ∧ r ≤ qs.length) ∧
    ((List.range qs.length).map fun j => p.indexOf j + 1).Nodup ∧
    (∀ j k : ℕ, j < qs.length → k < qs.length →
      qs.getD j 0 < qs.getD k 0 → p.indexOf j < p.indexOf k) := by
  obtain ⟨hperm, hpw⟩ := hsort
  rw [List.length_map] at hperm
  have hlenp : p.length = qs.length := by
    rw [hperm.length_eq, List.length_range]
  have hmemp : ∀ j : ℕ, j < qs.length → j ∈ p := by
    intro j hj
    exact hperm.mem_iff.mpr (List.mem_range.mpr hj)
  refine ⟨?_, ?_, ?_, ?_⟩
  · unfold rankTable
    rw [if_neg hrows, hidx, Option.some_bind, hget, Option.some_bind]
    simp only [hvals, List.length_map, if_true]
  · intro r hr
    obtain ⟨j, hj, rfl⟩ := List.mem_map.mp hr
    have hj2 : j < qs.length := List.mem_range.mp hj
    have hlt : p.indexOf j < p.length := List.indexOf_lt_length.mpr (hmemp j hj2)
    omega
  · refine List.Nodup.map_on ?_ (List.nodup_range qs.length)
    intro x hx y hy hxy
    have hxm : x ∈ p := hmemp x (List.mem_range.mp hx)
    have hym : y ∈ p := hmemp y (List.mem_range.mp hy)
    exact (List.indexOf_inj hxm hym).mp (by omega)
  · intro j k hj hk hval
    have hjm : j ∈ p := hmemp j hj
    have hkm : k ∈ p := hmemp k hk
    have hjlt : p.indexOf j < p.length := List.indexOf_lt_length.mpr hjm
    have hklt : p.indexOf k < p.length := List.indexOf_lt_length.mpr hkm
    by_contra hnot
    push_neg at hnot
    rcases Nat.lt_or_ge (p.indexOf k) (p.indexOf j) with hlt | hge
    · have hpair := List.pairwise_iff_getElem.mp hpw
      have hR := hpair (p.indexOf k) (p.indexOf j)
        (by rw [List.length_map]; exact hklt) (by rw [List.length_map]; exact hjlt) hlt
      rw [List.getElem_map, List.getElem_map, List.getElem_indexOf hklt,
        List.getElem_indexOf hjlt] at hR
      have hgk : (qs.map F.num).getD k F.nan = F.num (qs.getD k 0) := by
        rw [List.getD_eq_getElem _ _ (by rw [List.length_map]; exact hk),
          List.getElem_map, List.getD_eq_getElem _ _ hk]
      have hgj : (qs.map F.num).getD j F.nan = F.num (qs.getD j 0) := by
        rw [List.getD_eq_getElem _ _ (by rw [List.length_map]; exact hj),
          List.getElem_map, List.getD_eq_getElem _ _ hj]
      rw [hgk, hgj] at hR
      simp only [F.leB, decide_eq_true_eq] at hR
      linarith
    · have heq : p.indexOf j = p.indexOf k := by omega
      have hjk : j = k := (List.indexOf_inj hjm hkm).mp heq
      subst hjk
      exact absurd hval (lt_irrefl _)

/-- C3 counterexample input: two rows with equal scores `[1, 1]`. -/
def tieCol : Column := ⟨"score", DType.float32, [Value.fl (F.num 1), Value.fl (F.num 1)]⟩

def tieTbl : Table := ⟨[tieCol]⟩

def tieScores : List F := [F.num 1, F.num 1]

/-- C3 counterexample: on tied scores `[1, 1]` the permutation `[1, 0]`
satisfies the `np.argsort` contract (numpy does not promise stability
for the default quicksort kind), yet `_rank` then produces ranks
`[2, 1]` instead of the stable-order ranks `[1, 2]` demanded by the
claim, so stable tie-breaking does not follow from the code. -/
theorem rank_tie_stability_cex :
    argsortOk tieScores [1, 0] ∧
    rankTable tieTbl "score" true [1, 0] ≠
      some ⟨[⟨"score", DType.float32,
        (specStableRanks tieScores).map (fun r => Value.fl (F.num r))⟩]⟩ ∧
    ¬ (∀ p : List ℕ, argsortOk tieScores p →
      rankTable tieTbl "score" true p =
        some ⟨[⟨"score", DType.float32,
          (specStableRanks tieScores).map (fun r => Value.fl (F.num r))⟩]⟩) :=
  ⟨by decide, by decide, fun h => absurd (h [1, 0] (by decide)) (by decide)⟩

def distinctCol : Column := ⟨"score", DType.float32, [Value.fl (F.num 3), Value.fl (F.num 1)]⟩

def distinctTbl : Table := ⟨[distinctCol]⟩

theorem rank_one_based_ascending_witness :
    (distinctTbl.numRows ≠ 0 ∧ colIdxList distinctTbl.cols "score" = some 0 ∧
      distinctTbl.cols[0]? = some distinctCol ∧
      distinctCol.vals = [(3:ℚ), 1].map (fun q => Value.fl (F.num q)) ∧
      argsortOk ([(3:ℚ), 1].map F.num) [1, 0]) ∧
    (rankTable distinctTbl "score" true [1, 0] =
      some ⟨distinctTbl.cols.set 0 ⟨"score", DType.float32,
        ((List.range ([(3:ℚ), 1]).length).map fun j => [1, 0].indexOf j + 1).map
          (fun r => Value.fl (F.num r))⟩⟩ ∧
    (∀ r ∈ (List.range ([(3:ℚ), 1]).length).map fun j => [1, 0].indexOf j + 1,
      1 ≤ r ∧ r ≤ ([(3:ℚ), 1]).length) ∧
    ((List.range ([(3:ℚ), 1]).length).map fun j => [1, 0].indexOf j + 1).Nodup ∧
    (∀ j k : ℕ, j < ([(3:ℚ), 1]).length → k < ([(3:ℚ), 1]).length →
      ([(3:ℚ), 1]).getD j 0 < ([(3:ℚ), 1]).getD k 0 →
      ([1, 0] : List ℕ).indexOf j < ([1, 0] : List ℕ).indexOf k)) :=
  ⟨⟨by decide, rfl, rfl, rfl, by decide⟩,
    rank_one_based_ascending distinctTbl "score" 0 distinctCol [(3:ℚ), 1] [1, 0]
      (by decide) rfl rfl rfl (by decide)⟩

/-- C5: in mode "auto" the resolver sends a list or numpy array to type
"vector" with the query unchanged, a tuple to "hybrid", and a bare
string to "vector" (embedding the string and keeping the first returned
vector) when an embedding function is bound to the vector column, else
to "fts" with the query unchanged. -/
theorem resolve_auto_dispatch :
    (∀ (emb : Option (PyVal → List (List ℚ))) (v : List ℚ),
      resolveQuery emb (PyVal.pyList v) "auto" = Except.ok (PyVal.pyList v, "vector")) ∧
    (∀ (emb : Option (PyVal → List (List ℚ))) (v : List ℚ),
      resolveQuery emb (PyVal.pyNdarray v) "auto" =
        Except.ok (PyVal.pyNdarray v, "vector")) ∧
    (∀ (emb : Option (PyVal → List (List ℚ))) (es : List PyVal),
      resolveQuery emb (PyVal.pyTuple es) "auto" =
        Except.ok (PyVal.pyTuple es, "hybrid")) ∧
    (∀ (f : PyVal → List (List ℚ)) (s : String) (w : List ℚ) (ws : List (List ℚ)),
      f (PyVal.pyStr s) = w :: ws →
      resolveQuery (some f) (PyVal.pyStr s) "auto" =
        Except.ok (PyVal.pyNdarray w, "vector")) ∧
    (∀ s : String, resolveQuery none (PyVal.pyStr s) "auto" =
      Except.ok (PyVal.pyStr s, "fts")) := by
  refine ⟨fun emb v => rfl, fun emb v => rfl, fun emb es => rfl, ?_, fun s => rfl⟩
  intro f s w ws hf
  simp [resolveQuery, hf]

theorem resolve_auto_dispatch_witness :
    ((fun _ : PyVal => [[(1:ℚ)]]) (PyVal.pyStr "hello") = [(1:ℚ)] :: []) ∧
    resolveQuery (some (fun _ : PyVal => [[(1:ℚ)]])) (PyVal.pyStr "hello") "auto" =
      Except.ok (PyVal.pyNdarray [(1:ℚ)], "vector") :=
  ⟨rfl, resolve_auto_dispatch.2.2.2.1 (fun _ => [[(1:ℚ)]]) "hello" [(1:ℚ)] [] rfl⟩

/-- C6: hybrid query-shape validation: a string is used for both
sub-queries; a valid 2-tuple (vector-like, string) is split; a tuple of
wrong arity, a 2-tuple with a non-vector-like first element or a
non-string second element, and any value that is neither a string nor a
tuple, all fail with `ValueError` (the spec's `ValidationError`). -/
theorem hybrid_validate_query_shapes :
    (∀ s : String, validateQuery (PyVal.pyStr s) = Except.ok (PyVal.pyStr s, s)) ∧
    (∀ (a : PyVal) (s : String), isVectorLike a = true →
      validateQuery (PyVal.pyTuple [a, PyVal.pyStr s]) = Except.ok (a, s)) ∧
    (∀ es : List PyVal, es.length ≠ 2 →
      validateQuery (PyVal.pyTuple es) = Except.error errTupleArity) ∧
    (∀ a b : PyVal, isVectorLike a = false →
      validateQuery (PyVal.pyTuple [a, b]) = Except.error errVecShape) ∧
    (∀ a b : PyVal, isVectorLike a = true → (∀ s : String, b ≠ PyVal.pyStr s) →
      validateQuery (PyVal.pyTuple [a, b]) = Except.error errFtsStr) ∧
    (∀ q : PyVal, (∀ s : String, q ≠ PyVal.pyStr s) →
      (∀ es : List PyVal, q ≠ PyVal.pyTuple es) →
      validateQuery q = Except.error errQueryShape) := by
  refine ⟨fun s => rfl, ?_, ?_, ?_, ?_, ?_⟩
  · intro a s ha
    simp [validateQuery, ha]
  · intro es h
    simp only [validateQuery]
    rw [if_pos h]
  · intro a b ha
    simp [validateQuery, ha]
  · intro a b ha hb
    cases b with
    | pyStr s => exact absurd rfl (hb s)
    | pyList v => simp [validateQuery, ha]
    | pyNdarray v => simp [validateQuery, ha]
    | pyArrowArr v => simp [validateQuery, ha]
    | pyChunkedArr v => simp [validateQuery, ha]
    | pyTuple es => simp [validateQuery, ha]
    | pyOther tag => simp [validateQuery, ha]
  · intro q h1 h2
    cases q with
    | pyStr s => exact absurd rfl (h1 s)
    | pyTuple es => exact absurd rfl (h2 es)
    | pyList v => rfl
    | pyNdarray v => rfl
    | pyArrowArr v => rfl
    | pyChunkedArr v => rfl
    | pyOther tag => rfl

theorem hybrid_validate_query_shapes_witness :
    (validateQuery (PyVal.pyStr "hello") = Except.ok (PyVal.pyStr "hello", "hello")) ∧
    (isVectorLike (PyVal.pyList [1]) = true ∧
      validateQuery (PyVal.pyTuple [PyVal.pyList [1], PyVal.pyStr "hello"]) =
        Except.ok (PyVal.pyList [1], "hello")) ∧
    (([PyVal.pyStr "hello"] : List PyVal).length ≠ 2 ∧
      validateQuery (PyVal.pyTuple [PyVal.pyStr "hello"]) = Except.error errTupleArity) ∧
    (isVectorLike (PyVal.pyStr "a") = false ∧
      validateQuery (PyVal.pyTuple [PyVal.pyStr "a", PyVal.pyStr "b"]) =
        Except.error errVecShape) ∧
    (isVectorLike (PyVal.pyList [1]) = true ∧
      validateQuery (PyVal.pyTuple [PyVal.pyList [1], PyVal.pyOther "x"]) =
        Except.error errFtsStr) ∧
    validateQuery (PyVal.pyOther "obj") = Except.error errQueryShape :=
  ⟨hybrid_validate_query_shapes.1 "hello",
   ⟨rfl, hybrid_validate_query_shapes.2.1 (PyVal.pyList [1]) "hello" rfl⟩,
   ⟨by decide, hybrid_validate_query_shapes.2.2.1 [PyVal.pyStr "hello"] (by decide)⟩,
   ⟨rfl, hybrid_validate_query_shapes.2.2.2.1 (PyVal.pyStr "a") (PyVal.pyStr "b") rfl⟩,
   ⟨rfl, hybrid_validate_query_shapes.2.2.2.2.1 (PyVal.pyList [1]) (PyVal.pyOther "x") rfl
      (fun s h => PyVal.noConfusion h)⟩,
   hybrid_validate_query_shapes.2.2.2.2.2 (PyVal.pyOther "obj")
     (fun s h => PyVal.noConfusion h) (fun es h => PyVal.noConfusion h)⟩

/-- C7: a hybrid query against a table with no full-text index fails in
`__init__` (so before `to_arrow` could dispatch either sub-query, since
no builder is ever constructed), and a full-text query whose index is
absent fails with `FileNotFoundError` instead of silently returning an
empty table. -/
theorem hybrid_and_fts_require_index :
    (∀ (t : TableModel) (q : PyVal), t.ftsIndexPath = none →
      hybridInit t q = Except.error errNoFtsIndexHybrid) ∧
    (∀ (rowIds : List ℕ) (scores : List ℚ) (takeResult : Table)
      (wi : Option (List ℕ)) (wrid : Bool) (rer : Option (Table → Table)),
      ftsToArrow none rowIds scores takeResult wi wrid rer =
        Except.error errNoFtsIndex) := by
  constructor
  · intro t q h
    simp [hybridInit, validateFtsIndex, h, Bind.bind, Except.bind]
  · intro rowIds scores takeResult wi wrid rer
    rfl

def noIdxTable : TableModel := ⟨none, none⟩

theorem hybrid_and_fts_require_index_witness :
    noIdxTable.ftsIndexPath = none ∧
    hybridInit noIdxTable (PyVal.pyStr "hello") = Except.error errNoFtsIndexHybrid ∧
    ftsToArrow none [1, 2] [1, 2] (⟨[]⟩ : Table) none true none =
      Except.error errNoFtsIndex :=
  ⟨rfl, hybrid_and_fts_require_index.1 noIdxTable (PyVal.pyStr "hello") rfl,
    hybrid_and_fts_require_index.2 [1, 2] [1, 2] ⟨[]⟩ none true none⟩

/-- C10: when the full-text index search returns zero row-ids,
`LanceFtsQueryBuilder.to_arrow` returns an empty table whose schema is
exactly one float32 column named "score" — regardless of the selected
column projection (already folded into the storage `take` result), the
where-filter, the `with_row_id(True)` request, or any fts reranker. -/
theorem fts_empty_hits_schema (p : String) (scores : List ℚ) (takeResult : Table)
    (wi : Option (List ℕ)) (wrid : Bool) (rer : Option (Table → Table)) :
    ftsToArrow (some p) [] scores takeResult wi wrid rer =
      Except.ok ⟨[⟨"score", DType.float32, []⟩]⟩ := rfl

theorem slice_col_length (t : Table) (k : ℤ) (c : Column)
    (hc : c ∈ (t.slice (some k)).cols) : c.vals.length ≤ k.toNat := by
  simp only [Table.slice] at hc
  obtain ⟨c0, _, rfl⟩ := List.mem_map.mp hc
  simp [List.length_take]

theorem dropCols_mem (t : Table) (names : List String) (c : Column)
    (hc : c ∈ (t.dropCols names).cols) : c ∈ t.cols := by
  simp only [Table.dropCols] at hc
  exact List.mem_of_mem_filter hc

/-- C1: the hybrid `to_arrow` applies the limit after reranking via
`results.slice(length=self._limit)`; with any positive limit `k` (the
default is `initLimit = 10` when `limit` is never called) every column
of the returned table has at most `k` rows, whatever the size of the
merged candidate pool produced by the reranker. -/
theorem hybrid_limit_truncates_after_rerank :
    initLimit = some 10 ∧
    ∀ (vr fr : Table) (norm : String) (vs fs : List ℕ)
      (rer : String → Table → Table → Table) (q : String) (k : ℤ) (wrid : Bool)
      (out : Table),
      0 < k →
      hybridToArrow vr fr norm vs fs rer q (some k) wrid = some out →
      ∀ c ∈ out.cols, c.vals.length ≤ k.toNat := by
  refine ⟨rfl, ?_⟩
  intro vr fr norm vs fs rer q k wrid out hk hrun c hc
  unfold hybridToArrow at hrun
  obtain ⟨vf, hvf, hrest⟩ := Option.bind_eq_some.mp hrun
  obtain ⟨v1, hv1, hrest2⟩ := Option.bind_eq_some.mp hrest
  obtain ⟨f1, hf1, hout⟩ := Option.bind_eq_some.mp hrest2
  simp only [Option.some_inj] at hout
  subst hout
  by_cases hw : wrid
  · rw [if_pos hw] at hc
    exact slice_col_length _ k c hc
  · rw [if_neg hw] at hc
    exact slice_col_length _ k c (dropCols_mem _ _ c hc)

/-- Vector sub-result of the concrete hybrid runs (row-ids 1, 2). -/
def hVecTbl : Table :=
  ⟨[⟨"_distance", DType.float32, [Value.fl (F.num 0), Value.fl (F.num 1)]⟩,
    ⟨"_rowid", DType.uint64, [Value.nat 1, Value.nat 2]⟩]⟩

/-- Fts sub-result of the concrete hybrid runs (row-ids 2, 3). -/
def hFtsTbl : Table :=
  ⟨[⟨"score", DType.float32, [Value.fl (F.num 0), Value.fl (F.num 1)]⟩,
    ⟨"_rowid", DType.uint64, [Value.nat 2, Value.nat 3]⟩]⟩

/-- A merged 3-row reranker output over row-ids 1, 2, 3. -/
def hMerged : Table :=
  ⟨[⟨"_rowid", DType.uint64, [Value.nat 1, Value.nat 2, Value.nat 3]⟩,
    ⟨"_relevance_score", DType.float32,
      [Value.fl (F.num 1), Value.fl (F.num (1/2)), Value.fl (F.num 0)]⟩]⟩

/-- A reranker collaborator that merges the two sides into `hMerged`. -/
def constReranker : String → Table → Table → Table := fun _ _ _ => hMerged

theorem normalize_hVecTbl : normalizeScores hVecTbl "_distance" false = some hVecTbl := by
  unfold normalizeScores
  norm_num [Table.numRows, hVecTbl, colIdxList, valToF, listMax, listMin, F.max2, F.min2,
    F.isclose, F.sub, F.div, atol, rtol, List.set, abs_of_nonneg]

theorem normalize_hFtsTbl : normalizeScores hFtsTbl "score" false = some hFtsTbl := by
  unfold normalizeScores
  norm_num [Table.numRows, hFtsTbl, colIdxList, valToF, listMax, listMin, F.max2, F.min2,
    F.isclose, F.sub, F.div, atol, rtol, List.set, abs_of_nonneg]

/-- Result of the `k = 2` concrete hybrid run without row-ids. -/
def hOutTwo : Table :=
  ⟨[⟨"_relevance_score", DType.float32, [Value.fl (F.num 1), Value.fl (F.num (1/2))]⟩]⟩

theorem hybrid_run_two :
    hybridToArrow hVecTbl hFtsTbl "score" [] [] constReranker "q" (some 2) false =
      some hOutTwo := by
  unfold hybridToArrow
  rw [if_neg (by decide : ¬ ("score" : String) = "rank"), Option.some_bind,
    normalize_hVecTbl, Option.some_bind, normalize_hFtsTbl, Option.some_bind]
  rfl

theorem hybrid_limit_truncates_after_rerank_witness :
    ((0:ℤ) < 2 ∧
      hybridToArrow hVecTbl hFtsTbl "score" [] [] constReranker "q" (some 2) false =
        some hOutTwo) ∧
    (∀ c ∈ hOutTwo.cols, c.vals.length ≤ (2:ℤ).toNat) :=
  ⟨⟨by decide, hybrid_run_two⟩,
    hybrid_limit_truncates_after_rerank.2 hVecTbl hFtsTbl "score" [] [] constReranker
      "q" 2 false hOutTwo (by decide) hybrid_run_two⟩

/-- Result of the `limit 0` concrete hybrid run with row-ids kept: all
columns empty. -/
def hOutZero : Table :=
  ⟨[⟨"_rowid", DType.uint64, []⟩, ⟨"_relevance_score", DType.float32, []⟩]⟩

/-- C8 (code-bug evidence): the base-class `limit` setter maps `None`,
zero and negative values to `None` ("unbounded": `slice(None)` keeps all
rows), but the hybrid override stores the raw value, so `limit(0)`
followed by `to_arrow` slices the merged reranked table (here 3 rows)
down to 0 rows instead of returning all matching rows. -/
theorem hybrid_limit_zero_returns_empty :
    baseLimitSet (some 0) = none ∧
    baseLimitSet (some (-5)) = none ∧
    baseLimitSet none = none ∧
    hybridLimitSet (some 0) = some 0 ∧
    hMerged.numRows = 3 ∧
    (hMerged.slice (baseLimitSet (some 0))).numRows = 3 ∧
    hybridToArrow hVecTbl hFtsTbl "score" [] [] constReranker "q"
      (hybridLimitSet (some 0)) true = some hOutZero ∧
    hOutZero.numRows = 0 := by
  refine ⟨rfl, rfl, rfl, rfl, rfl, rfl, ?_, rfl⟩
  unfold hybridToArrow
  rw [if_neg (by decide : ¬ ("score" : String) = "rank"), Option.some_bind,
    normalize_hVecTbl, Option.some_bind, normalize_hFtsTbl, Option.some_bind]
  rfl

end LanceDB
